import Mathlib

/-!
Shallow embedding of the SoulBios Berghain player's decision-and-adaptation
core (`soulbios_player.py`) and of its strategy cache
(`infrastructure/strategy_cache.py`).

Python floats are modelled by exact rationals (`ℚ`), Python ints by `ℤ`.
Python dicts with string keys are modelled by association lists; the
attribute keys of `BouncerPolicy.constraints` and of a candidate's
attribute dict are distinct by construction (they are Python dict keys),
so first-match lookup coincides with dict lookup.
-/

namespace SoulBios

/-- One entry of `BouncerPolicy.constraints`: built in `__init__` from
`{c['attribute']: {"target": c['minCount'], "admitted": 0}}`. -/
structure Constraint where
  attr : String
  target : Int
  admitted : Int
deriving DecidableEq, Repr

/-- The mutable counters of `BouncerPolicy` that `should_admit` reads. -/
structure BouncerState where
  constraints : List Constraint
  slots_filled : Int
  slots_remaining : Int
deriving DecidableEq, Repr

/-- A candidate's attribute dict (`person_attributes`). -/
def Person : Type := List (String × Bool)

/-- `person_attributes.get(attr, False)`. -/
def person_get (p : Person) (a : String) : Bool :=
  match List.find? (fun x => x.1 = a) p with
  | some x => x.2
  | none => false

/-- `attr in self.constraints` / `self.constraints[attr]` as one lookup. -/
def find_constraint (cs : List Constraint) (a : String) : Option Constraint :=
  List.find? (fun c => c.attr = a) cs

/-- The strategy dict a review returns.  Every field the player reads is
read with `dict.get` and a default, so an absent key (`none`) is
observationally the default value. -/
structure Strategy where
  policy_type : Option String
  phase_switch_point : Option Int
  base_leniency : Option ℚ
  scaling_factor : Option ℚ
  base_threshold : Option ℚ
  buffer_percent : Option ℚ
deriving DecidableEq, Repr

/-- `strategy.get("policy_type", "Hybrid")` (line 120). -/
def Strategy.policyType (s : Strategy) : String := s.policy_type.getD "Hybrid"

/-- `strategy.get("phase_switch_point", 400)` (line 121). -/
def Strategy.switchPoint (s : Strategy) : Int := s.phase_switch_point.getD 400

/-- `params.get("base_leniency", 0.55)` (line 130). -/
def Strategy.baseLeniency (s : Strategy) : ℚ := s.base_leniency.getD 0.55

/-- `params.get("scaling_factor", 0.4)` (line 131). -/
def Strategy.scalingFactor (s : Strategy) : ℚ := s.scaling_factor.getD 0.4

/-- `params.get("base_threshold", 0.75)` (line 149). -/
def Strategy.baseThreshold (s : Strategy) : ℚ := s.base_threshold.getD 0.75

/-- `params.get("buffer_percent", 0.1)` (line 150). -/
def Strategy.bufferPercent (s : Strategy) : ℚ := s.buffer_percent.getD 0.1

/-- The strategy dict in which every key is absent; reading it through the
accessors above yields all the hardcoded defaults. -/
def defaultStrategy : Strategy :=
  ⟨none, none, none, none, none, none⟩

/-- The panic-mode loop at the top of `should_admit` (lines 111-118):
scan the constraints; return `True` at the first constraint with
`slots_remaining > 0 and needed >= slots_remaining` that the candidate
carries, otherwise fall through. -/
def panic_check (st : BouncerState) (p : Person) : Bool :=
  st.constraints.any fun c =>
    (decide (0 < st.slots_remaining) &&
      decide (st.slots_remaining ≤ c.target - c.admitted)) &&
      person_get p c.attr

/-- The `urgencies` list built by `_max_urgency_logic` (lines 133-138); the
loop of `_combined_value_logic` (lines 152-157) accumulates the same
values.  An entry appears for each item `(attr, has_attr)` of the
candidate's dict with `has_attr` true, `attr` tracked, and
`slots_remaining > 0`; the value is `needed / slots_remaining` with
`needed = target - admitted` (no flooring at 0). -/
def urgencies_of (st : BouncerState) (p : Person) : List ℚ :=
  p.filterMap fun pa =>
    if pa.2 = true then
      match find_constraint st.constraints pa.1 with
      | some c =>
          if 0 < st.slots_remaining then
            some (((c.target - c.admitted : Int) : ℚ) / ((st.slots_remaining : Int) : ℚ))
          else none
      | none => none
    else none

/-- Python's `max` over a nonempty list (junk value 0 on `[]`, a case the
caller excludes). -/
def list_max : List ℚ → ℚ
  | [] => 0
  | h :: t => t.foldl max h

/-- `combined_urgency` after the loop of `_combined_value_logic`. -/
def combined_sum (st : BouncerState) (p : Person) : ℚ :=
  (urgencies_of st p).foldl (· + ·) 0

/-- `BouncerPolicy._max_urgency_logic` (lines 128-145). -/
def max_urgency_logic (st : BouncerState) (strat : Strategy) (p : Person) : Bool :=
  let urg := urgencies_of st p
  if urg = [] then false
  else if 1 ≤ list_max urg then true
  else decide (strat.baseLeniency + strat.scalingFactor * ((st.slots_filled : ℚ) / 1000)
      ≤ list_max urg)

/-- `BouncerPolicy._combined_value_logic` (lines 147-161). -/
def combined_value_logic (st : BouncerState) (strat : Strategy) (p : Person) : Bool :=
  let s := combined_sum st p
  if s = 0 then false
  else if 1 + strat.bufferPercent ≤ s then true
  else decide (strat.baseThreshold ≤ s)

/-- `BouncerPolicy.should_admit` (lines 110-126). -/
def should_admit (st : BouncerState) (strat : Strategy) (p : Person) : Bool :=
  if panic_check st p then true
  else if strat.policyType = "Hybrid" ∧ st.slots_filled < strat.switchPoint then
    max_urgency_logic st strat p
  else if strat.policyType = "MaxUrgency" then
    max_urgency_logic st strat p
  else
    combined_value_logic st strat p

/-- Outcome of the POST to `/v1/berghain/strategize` as seen by
`get_soulbios_strategy` (lines 27-52): a parsed JSON strategy, or one of
the failure modes its three `except` clauses catch (`httpx.HTTPStatusError`,
`httpx.TimeoutException`, any other `Exception`). -/
inductive FetchOutcome where
  | success (strategy : Strategy)
  | httpStatusError (code : Int)
  | timeout
  | failure
deriving DecidableEq, Repr

/-- `get_soulbios_strategy` (lines 27-52): return the parsed response on
success and the supplied `fallback_strategy` on every failure; total, so it
never propagates an error to its caller. -/
def get_soulbios_strategy (outcome : FetchOutcome) (fallback_strategy : Strategy) :
    Strategy :=
  match outcome with
  | .success s => s
  | .httpStatusError _ => fallback_strategy
  | .timeout => fallback_strategy
  | .failure => fallback_strategy

/-- The hardcoded `fallback_strategy` dict of `play_game` (lines 193-198):
`late_game_params` carries no `buffer_percent` key, so the consumer's
`params.get("buffer_percent", 0.1)` reads 0.1. -/
def fallback_strategy : Strategy :=
  ⟨some "Hybrid", some 400, some 0.55, some 0.4, some 0.75, none⟩

/-- `BouncerPolicy.get_acceptance_rate_in_window` (lines 163-170). -/
def get_acceptance_rate_in_window (recent : List Bool) (window_size : Nat) : ℚ :=
  if recent = [] ∨ recent.length < window_size then 1
  else
    let recent_window := recent.drop (recent.length - window_size)
    ((recent_window.countP (fun b => b) : ℚ)) / (recent_window.length : ℚ)

/-- The review trigger of `play_game` (lines 220-233): emergency when
`person_index > 450`, not already a scheduled review, at least 25 recorded
decisions, and zero acceptance in the last 25; a review fires when
`person_index > 0` and (`person_index % 100 == 0` or emergency). -/
def review_triggered (person_index : Int) (recent : List Bool) : Bool :=
  let emergency_triggered :=
    decide (450 < person_index) && decide (¬ person_index % 100 = 0) &&
      decide (25 ≤ recent.length) &&
      decide (get_acceptance_rate_in_window recent 25 = 0)
  decide (0 < person_index) && (decide (person_index % 100 = 0) || emergency_triggered)

/-- One element of a game state's `constraints` list as the cache sees it:
`{"attribute": ..., "minCount": ..., "admitted": ...}`; the `attribute` key
is called `attr` because `attribute` is reserved in Lean. -/
structure CacheConstraint where
  attr : String
  minCount : Int
  admitted : Int
deriving DecidableEq, Repr

/-- A game-state snapshot handed to `StrategyCache`
(`current_person`, `accepted_count`, `constraints`,
`observedFrequencies`). -/
structure GameState where
  current_person : Int
  accepted_count : Int
  constraints : List CacheConstraint
  observedFrequencies : List (String × ℚ)
deriving DecidableEq, Repr

/-- The dict comprehension
`{c.get("attribute"): c.get("minCount", 0) for c in state.get("constraints", [])}`
followed by `.get(attr, 0)`: on duplicate attributes the last entry wins. -/
def minCountOf (cs : List CacheConstraint) (a : String) : Int :=
  match List.find? (fun c => c.attr = a) cs.reverse with
  | some c => c.minCount
  | none => 0

/-- `set(constraints1.keys()) | set(constraints2.keys())`, as a duplicate-free
list; the iteration order of a Python set is unspecified and the product
taken over it is order-independent. -/
def attrUnion (s1 s2 : GameState) : List String :=
  ((s1.constraints.map fun c => c.attr) ++
    (s2.constraints.map fun c => c.attr)).dedup

/-- `person_similarity = max(0, 1 - person_diff / 100)` (lines 65-66). -/
def person_similarity (s1 s2 : GameState) : ℚ :=
  max 0 (1 - |((s1.current_person : ℚ)) - (s2.current_person : ℚ)| / 100)

/-- `accept_similarity = max(0, 1 - accept_diff / 50)` (lines 68-69). -/
def accept_similarity (s1 s2 : GameState) : ℚ :=
  max 0 (1 - |((s1.accepted_count : ℚ)) - (s2.accepted_count : ℚ)| / 50)

/-- The constraint-similarity loop (lines 72-78): running product over the
attribute union of `max(0, 1 - |ΔminCount| / 200)`; note the code compares
`minCount` values, not deficits. -/
def constraint_similarity (s1 s2 : GameState) : ℚ :=
  (attrUnion s1 s2).foldl
    (fun acc a =>
      acc * max 0 (1 - |((minCountOf s1.constraints a : ℚ)) -
        (minCountOf s2.constraints a : ℚ)| / 200)) 1

/-- `StrategyCache._calculate_similarity` (lines 61-91): the weighted
average `person*0.4 + accept*0.3 + constraint*0.3`; no branch of the
computation raises, so the `except` fallback to 0.0 is dead. -/
def calculate_similarity (s1 s2 : GameState) : ℚ :=
  person_similarity s1 s2 * 0.4 + accept_similarity s1 s2 * 0.3 +
    constraint_similarity s1 s2 * 0.3

/-- The `CachedStrategy` dataclass.  `game_state` stands for both the md5
key `game_state_hash` (the hash is modelled as the hashed state itself,
collisions ignored) and the `original_game_state` JSON kept in the cache
metadata: both are derived from the same snapshot at store time. -/
structure CachedStrategy where
  strategy : Strategy
  timestamp : Nat
  game_state : GameState
  similarity_score : ℚ
  hit_count : Nat
deriving DecidableEq, Repr

/-- `StrategyCache._is_cache_valid`: age below `max_age_minutes = 30`;
`now` is the lookup time in minutes. -/
def is_cache_valid (now : Nat) (cs : CachedStrategy) : Bool :=
  decide ((now : Int) - (cs.timestamp : Int) < 30)

/-- One iteration of the similarity-match loop of `get_cached_strategy`
(lines 115-130): skip invalid (expired) entries; replace the running best
when the similarity is strictly greater than `best_similarity` and ≥ the
`similarity_threshold` 0.85. -/
def sim_match_step (now : Nat) (game_state : GameState)
    (acc : Option (GameState × CachedStrategy) × ℚ)
    (kv : GameState × CachedStrategy) :
    Option (GameState × CachedStrategy) × ℚ :=
  if is_cache_valid now kv.2 then
    let similarity := calculate_similarity game_state kv.2.game_state
    if acc.2 < similarity ∧ 0.85 ≤ similarity then (some kv, similarity)
    else acc
  else acc

/-- The similarity-match scan of `get_cached_strategy` (lines 111-137):
fold over the cache keeping `(best_match, best_similarity)`, starting at
`(None, 0.0)`. -/
def get_similarity_match (now : Nat)
    (cache : List (GameState × CachedStrategy)) (game_state : GameState) :
    Option (GameState × CachedStrategy) × ℚ :=
  cache.foldl (sim_match_step now game_state) (none, 0)

/-- Python dict assignment `self.cache[game_state_hash] = cached_strategy`
(line 175): overwrite in place when the key exists, else append in
insertion order. -/
def dict_insert (cache : List (GameState × CachedStrategy)) (k : GameState)
    (v : CachedStrategy) : List (GameState × CachedStrategy) :=
  if k ∈ cache.map Prod.fst then
    cache.map fun kv => if kv.1 = k then (k, v) else kv
  else cache ++ [(k, v)]

/-- The sort key of `_evict_oldest_entries`
(`key=lambda x: (x[1].timestamp, x[1].hit_count)`): lexicographic order on
`(timestamp, hit_count)` ascending. -/
def entry_le (a b : GameState × CachedStrategy) : Prop :=
  a.2.timestamp < b.2.timestamp ∨
    (a.2.timestamp = b.2.timestamp ∧ a.2.hit_count ≤ b.2.hit_count)

instance : DecidableRel entry_le := fun a b => by
  unfold entry_le
  infer_instance

/-- `StrategyCache._evict_oldest_entries` (lines 188-200): stable-sort the
entries by `(timestamp, hit_count)` ascending and delete the first
`int(len(cache) * 0.2)` of them from the cache; for the sizes that occur
(`n ≤ 1000`) `int(n * 0.2)` equals `n / 5` exactly. -/
def evict_oldest_entries (cache : List (GameState × CachedStrategy)) :
    List (GameState × CachedStrategy) :=
  let sorted_entries := List.insertionSort entry_le cache
  let entries_to_remove := cache.length / 5
  (sorted_entries.take entries_to_remove).foldl
    (fun acc kv => acc.eraseP fun kv2 => decide (kv2.1 = kv.1)) cache

/-- `StrategyCache.cache_strategy` (lines 150-181): evict when the cache
is at or above `max_cache_size = 1000`, then insert the new entry with
`similarity_score = 1.0` and `hit_count = 0`. -/
def cache_strategy (cache : List (GameState × CachedStrategy))
    (game_state : GameState) (timestamp : Nat) (strategy : Strategy) :
    List (GameState × CachedStrategy) :=
  let cache2 := if 1000 ≤ cache.length then evict_oldest_entries cache else cache
  dict_insert cache2 game_state ⟨strategy, timestamp, game_state, 1, 0⟩

/-- A sequence of `cache_strategy` calls starting from the empty cache. -/
def apply_stores (ops : List (GameState × Nat × Strategy)) :
    List (GameState × CachedStrategy) :=
  ops.foldl (fun c op => cache_strategy c op.1 op.2.1 op.2.2) []

/-- Per-attribute deficit lookup following the spec's words of C6
(`target minus admitted, floored at 0`); written only to be compared
against `minCountOf`, which is what the code uses. -/
def deficitOf (cs : List CacheConstraint) (a : String) : Int :=
  match List.find? (fun c => c.attr = a) cs.reverse with
  | some c => max 0 (c.minCount - c.admitted)
  | none => 0

/-- Similarity following the spec's words of C6: `constraintSim` built
from per-attribute deficits instead of `minCount` values.  Written only to
be compared against `calculate_similarity`. -/
def similarity_by_spec (s1 s2 : GameState) : ℚ :=
  0.4 * person_similarity s1 s2 + 0.3 * accept_similarity s1 s2 +
    0.3 * (attrUnion s1 s2).foldl
      (fun acc a =>
        acc * max 0 (1 - |((deficitOf s1.constraints a : ℚ)) -
          (deficitOf s2.constraints a : ℚ)| / 200)) 1

end SoulBios

namespace SoulBios

/-- C1: Panic-mode override: in a mid-loop state (`slots_remaining > 0`),
if some tracked constraint has `max 0 (target - admitted) ≥ slots_remaining`
and the candidate carries its attribute, `should_admit` returns `true`,
for every strategy. -/
theorem panic_mode_forces_admit
    (st : BouncerState) (strat : Strategy) (p : Person) (c : Constraint)
    (hmem : c ∈ st.constraints)
    (hslots : 0 < st.slots_remaining)
    (hdef : st.slots_remaining ≤ max 0 (c.target - c.admitted))
    (hcarry : person_get p c.attr = true) :
    should_admit st strat p = true := by
  have hneed : st.slots_remaining ≤ c.target - c.admitted := by
    rcases le_max_iff.mp hdef with h | h
    · omega
    · exact h
  have hpanic : panic_check st p = true := by
    refine List.any_eq_true.mpr ⟨c, hmem, ?_⟩
    simp [hslots, hneed, hcarry]
  simp [ should_admit, hpanic]

/-- Witness for C1: a concrete mid-loop state in which panic mode fires. -/
theorem panic_mode_forces_admit_witness :
    (⟨"a", 10, 0⟩ : Constraint) ∈ [(⟨"a", 10, 0⟩ : Constraint)] ∧
    (0 : Int) < 5 ∧
    (5 : Int) ≤ max 0 (10 - 0) ∧
    person_get [("a", true)] "a" = true ∧
    should_admit ⟨[⟨"a", 10, 0⟩], 995, 5⟩ defaultStrategy [("a", true)] = true := by
  refine ⟨by decide, by decide, by decide, by decide, ?_⟩
  exact panic_mode_forces_admit ⟨[⟨"a", 10, 0⟩], 995, 5⟩ defaultStrategy
    [("a", true)] ⟨"a", 10, 0⟩ (by decide) (by decide) (by decide) (by decide)

/-- C10: with `slots_remaining = 0`, panic mode cannot fire, the urgency
list (every division site) is empty, and `should_admit` rejects for every
strategy and candidate. -/
theorem zero_slots_rejects
    (st : BouncerState) (strat : Strategy) (p : Person)
    (h : st.slots_remaining = 0) :
    panic_check st p = false ∧ urgencies_of st p = [] ∧
      should_admit st strat p = false := by
  have hpanic : panic_check st p = false := by
    simp [panic_check, h]
  have hurg : urgencies_of st p = [] := by
    rw [urgencies_of, List.filterMap_eq_nil_iff]
    intro pa _
    by_cases h2 : pa.2 = true
    · simp only [h2, if_true]
      cases find_constraint st.constraints pa.1 <;> simp [h]
    · simp [h2]
  refine ⟨hpanic, hurg, ?_⟩
  simp only [ should_admit, hpanic, Bool.false_eq_true, if_false]
  have hmu : max_urgency_logic st strat p = false := by
    simp [max_urgency_logic, hurg]
  have hcv : combined_value_logic st strat p = false := by
    simp [combined_value_logic, combined_sum, hurg]
  split
  · exact hmu
  · split
    · exact hmu
    · exact hcv

/-- Witness for C10: a concrete terminal state (no slots left) rejects. -/
theorem zero_slots_rejects_witness :
    (⟨[⟨"a", 3, 0⟩], 1000, 0⟩ : BouncerState).slots_remaining = 0 ∧
    (panic_check ⟨[⟨"a", 3, 0⟩], 1000, 0⟩ [("a", true)] = false ∧
      urgencies_of ⟨[⟨"a", 3, 0⟩], 1000, 0⟩ [("a", true)] = [] ∧
      should_admit ⟨[⟨"a", 3, 0⟩], 1000, 0⟩ defaultStrategy [("a", true)] = false) :=
  ⟨rfl, zero_slots_rejects ⟨[⟨"a", 3, 0⟩], 1000, 0⟩ defaultStrategy
    [("a", true)] rfl⟩

/-- Decision function following the spec's words for the phase switch
(claim C2): same as `should_admit`, except that the Hybrid early/late
switch compares the candidate's arrival index `person_index` — not the
accepted count — with the phase-switch point.  Written only to be compared
against `should_admit`, which is the code's behaviour. -/
def should_admit_by_person_index (person_index : Int) (st : BouncerState)
    (strat : Strategy) (p : Person) : Bool :=
  if panic_check st p then true
  else if strat.policyType = "Hybrid" ∧ person_index < strat.switchPoint then
    max_urgency_logic st strat p
  else if strat.policyType = "MaxUrgency" then
    max_urgency_logic st strat p
  else
    combined_value_logic st strat p

/-- Counterexample to C2: at `slots_filled = 400` (≥ switch point 400) the
code uses the late-phase logic and rejects, while the person-index
criterion of the claim (arrival index 0 < 400) would use the early-phase
logic and admit. -/
theorem phase_switch_claim_counterexample :
    should_admit ⟨[⟨"a", 438, 0⟩], 400, 600⟩ defaultStrategy [("a", true)] = false ∧
    should_admit_by_person_index 0 ⟨[⟨"a", 438, 0⟩], 400, 600⟩ defaultStrategy
      [("a", true)] = true := by
  constructor <;>
    norm_num [ should_admit, should_admit_by_person_index, panic_check, person_get,
      find_constraint, combined_value_logic, combined_sum, urgencies_of,
      max_urgency_logic, list_max, Strategy.policyType, Strategy.switchPoint,
      Strategy.baseLeniency, Strategy.scalingFactor, Strategy.baseThreshold,
      Strategy.bufferPercent, defaultStrategy, List.filterMap, List.find?,
      List.any, show ("Hybrid" = "MaxUrgency") = False by simp]

/-- C2 (amended): for a Hybrid strategy, after the panic check, the
early-phase Max-Urgency logic is used exactly when `slots_filled` (the
accepted count) is strictly less than the phase-switch point, and the
late-phase Combined-Value logic otherwise. -/
theorem hybrid_switches_on_slots_filled
    (st : BouncerState) (strat : Strategy) (p : Person)
    (hpt : strat.policyType = "Hybrid")
    (hpanic : panic_check st p = false) :
    should_admit st strat p =
      if st.slots_filled < strat.switchPoint then max_urgency_logic st strat p
      else combined_value_logic st strat p := by
  by_cases hlt : st.slots_filled < strat.switchPoint
  · simp [ should_admit, hpanic, hpt, hlt]
  · simp [ should_admit, hpanic, hpt, hlt]

/-- Witness for C2 (amended): at `slots_filled = 400` the switch has
happened and the decision is the late-phase one. -/
theorem hybrid_switches_on_slots_filled_witness :
    (defaultStrategy.policyType = "Hybrid") ∧
    panic_check ⟨[⟨"a", 438, 0⟩], 400, 600⟩ [("a", true)] = false ∧
    should_admit ⟨[⟨"a", 438, 0⟩], 400, 600⟩ defaultStrategy [("a", true)] =
      if (⟨[⟨"a", 438, 0⟩], 400, 600⟩ : BouncerState).slots_filled <
          defaultStrategy.switchPoint then
        max_urgency_logic ⟨[⟨"a", 438, 0⟩], 400, 600⟩ defaultStrategy [("a", true)]
      else combined_value_logic ⟨[⟨"a", 438, 0⟩], 400, 600⟩ defaultStrategy
        [("a", true)] :=
  ⟨rfl, by decide,
    hybrid_switches_on_slots_filled ⟨[⟨"a", 438, 0⟩], 400, 600⟩ defaultStrategy
      [("a", true)] rfl (by decide)⟩

/-- Early-phase rule following the spec's words (claim C3): urgency floored
at 0 with denominator `max 1 slotsRemaining`, `maxUrgency = 0` when the
candidate carries no tracked attribute, admit iff `maxUrgency ≥ 1` or
`maxUrgency ≥ baseLeniency + scalingFactor * (acceptedCount / capacity)`.
Written only to be compared against `max_urgency_logic`. -/
def max_urgency_by_spec (st : BouncerState) (strat : Strategy) (p : Person) : Bool :=
  let urg : List ℚ := p.filterMap fun pa =>
    if pa.2 = true then
      match find_constraint st.constraints pa.1 with
      | some c =>
          some (((max 0 (c.target - c.admitted) : Int) : ℚ) /
            ((max 1 st.slots_remaining : Int) : ℚ))
      | none => none
    else none
  let m : ℚ := if urg = [] then 0 else list_max urg
  decide (1 ≤ m) ||
    decide (strat.baseLeniency + strat.scalingFactor * ((st.slots_filled : ℚ) / 1000) ≤ m)

/-- Counterexample to C3: a candidate carrying no tracked attribute is
always rejected by `_max_urgency_logic` (empty urgency list), while the
claim's rule admits it whenever the dynamic threshold is ≤ 0 (here
`baseLeniency = scalingFactor = 0`, so `maxUrgency = 0` meets the bar). -/
theorem max_urgency_claim_counterexample :
    should_admit ⟨[⟨"a", 5, 0⟩], 0, 1000⟩ ⟨none, none, some 0, some 0, none, none⟩
      [] = false ∧
    max_urgency_by_spec ⟨[⟨"a", 5, 0⟩], 0, 1000⟩
      ⟨none, none, some 0, some 0, none, none⟩ [] = true := by
  constructor <;>
    norm_num [ should_admit, max_urgency_by_spec, panic_check, person_get,
      find_constraint, combined_value_logic, combined_sum, urgencies_of,
      max_urgency_logic, list_max, Strategy.policyType, Strategy.switchPoint,
      Strategy.baseLeniency, Strategy.scalingFactor, Strategy.baseThreshold,
      Strategy.bufferPercent, List.filterMap, List.find?, List.any]

/-- Helper: the early-phase decision unfolded into the admission rule. -/
theorem max_urgency_logic_rule (st : BouncerState) (strat : Strategy) (p : Person) :
    max_urgency_logic st strat p = true ↔
      (urgencies_of st p ≠ [] ∧
        (1 ≤ list_max (urgencies_of st p) ∨
          strat.baseLeniency + strat.scalingFactor * ((st.slots_filled : ℚ) / 1000)
            ≤ list_max (urgencies_of st p))) := by
  by_cases h : urgencies_of st p = []
  · simp [max_urgency_logic, h]
  · by_cases h1 : (1 : ℚ) ≤ list_max (urgencies_of st p) <;>
      simp [max_urgency_logic, h, h1]

/-- C3 (amended): when the Max-Urgency logic applies (no panic; policy
`MaxUrgency`, or `Hybrid` before the switch), the decision is admit iff the
urgency list is nonempty (the candidate carries a tracked attribute and
slots remain) and its maximum — computed from the unfloored deficit
`target - admitted` divided by `slots_remaining` — is ≥ 1 or ≥
`baseLeniency + scalingFactor * (slots_filled / 1000)`. -/
theorem max_urgency_rule_amended
    (st : BouncerState) (strat : Strategy) (p : Person)
    (hpanic : panic_check st p = false)
    (happly : strat.policyType = "MaxUrgency" ∨
      (strat.policyType = "Hybrid" ∧ st.slots_filled < strat.switchPoint)) :
    ( should_admit st strat p = true ↔
      (urgencies_of st p ≠ [] ∧
        (1 ≤ list_max (urgencies_of st p) ∨
          strat.baseLeniency + strat.scalingFactor * ((st.slots_filled : ℚ) / 1000)
            ≤ list_max (urgencies_of st p)))) := by
  have hdispatch : should_admit st strat p = max_urgency_logic st strat p := by
    rcases happly with hmu | ⟨hh, hlt⟩
    · have : ¬ (strat.policyType = "Hybrid" ∧ st.slots_filled < strat.switchPoint) := by
        rw [hmu]; simp
      simp [ should_admit, hpanic, this, hmu]
    · simp [ should_admit, hpanic, hh, hlt]
  rw [hdispatch]
  exact max_urgency_logic_rule st strat p

/-- Witness for C3 (amended): early-phase state where the rule admits. -/
theorem max_urgency_rule_amended_witness :
    panic_check ⟨[⟨"a", 300, 0⟩], 0, 1000⟩ [("a", true)] = false ∧
    (defaultStrategy.policyType = "MaxUrgency" ∨
      (defaultStrategy.policyType = "Hybrid" ∧
        (⟨[⟨"a", 300, 0⟩], 0, 1000⟩ : BouncerState).slots_filled <
          defaultStrategy.switchPoint)) ∧
    ( should_admit ⟨[⟨"a", 300, 0⟩], 0, 1000⟩ defaultStrategy [("a", true)] = true ↔
      (urgencies_of ⟨[⟨"a", 300, 0⟩], 0, 1000⟩ [("a", true)] ≠ [] ∧
        (1 ≤ list_max (urgencies_of ⟨[⟨"a", 300, 0⟩], 0, 1000⟩ [("a", true)]) ∨
          defaultStrategy.baseLeniency + defaultStrategy.scalingFactor *
            (((⟨[⟨"a", 300, 0⟩], 0, 1000⟩ : BouncerState).slots_filled : ℚ) / 1000)
            ≤ list_max (urgencies_of ⟨[⟨"a", 300, 0⟩], 0, 1000⟩ [("a", true)])))) :=
  ⟨by decide, Or.inr ⟨rfl, by decide⟩,
    max_urgency_rule_amended ⟨[⟨"a", 300, 0⟩], 0, 1000⟩ defaultStrategy
      [("a", true)] (by decide) (Or.inr ⟨rfl, by decide⟩)⟩

/-- Late-phase rule following the spec's words (claim C4): contributions
floored at 0 with denominator `max 1 slotsRemaining`; reject when the sum
is 0, else admit iff `sum ≥ 1 + bufferPercent` or `sum ≥ baseThreshold`.
Written only to be compared against `combined_value_logic`. -/
def combined_value_by_spec (st : BouncerState) (strat : Strategy) (p : Person) : Bool :=
  let urg : List ℚ := p.filterMap fun pa =>
    if pa.2 = true then
      match find_constraint st.constraints pa.1 with
      | some c =>
          some (((max 0 (c.target - c.admitted) : Int) : ℚ) /
            ((max 1 st.slots_remaining : Int) : ℚ))
      | none => none
    else none
  let s : ℚ := urg.foldl (· + ·) 0
  if s = 0 then false
  else decide (1 + strat.bufferPercent ≤ s) || decide (strat.baseThreshold ≤ s)

/-- Counterexample to C4: an over-admitted attribute contributes a negative
(unfloored) urgency in the code, cancelling a positive one: the code's sum
is 0 and it rejects, while the claim's floored sum is 0.8 ≥ baseThreshold
0.75 and admits. -/
theorem combined_value_claim_counterexample :
    should_admit ⟨[⟨"a", 8, 0⟩, ⟨"b", 0, 8⟩], 990, 10⟩ defaultStrategy
      [("a", true), ("b", true)] = false ∧
    combined_value_by_spec ⟨[⟨"a", 8, 0⟩, ⟨"b", 0, 8⟩], 990, 10⟩ defaultStrategy
      [("a", true), ("b", true)] = true := by
  constructor <;>
    norm_num [ should_admit, combined_value_by_spec, panic_check, person_get,
      find_constraint, combined_value_logic, combined_sum, urgencies_of,
      max_urgency_logic, list_max, Strategy.policyType, Strategy.switchPoint,
      Strategy.baseLeniency, Strategy.scalingFactor, Strategy.baseThreshold,
      Strategy.bufferPercent, defaultStrategy, List.filterMap, List.find?,
      List.any, show ("a" = "b") = False by simp, show ("b" = "b") = True by simp,
      show ("a" = "a") = True by simp, show ("b" = "a") = False by simp]

/-- Helper: the late-phase decision unfolded into the admission rule. -/
theorem combined_value_logic_rule (st : BouncerState) (strat : Strategy) (p : Person) :
    combined_value_logic st strat p = true ↔
      (combined_sum st p ≠ 0 ∧
        (1 + strat.bufferPercent ≤ combined_sum st p ∨
          strat.baseThreshold ≤ combined_sum st p)) := by
  by_cases h : combined_sum st p = 0
  · simp [combined_value_logic, h]
  · by_cases h1 : 1 + strat.bufferPercent ≤ combined_sum st p <;>
      simp [combined_value_logic, h, h1]

/-- C4 (amended): when the Combined-Value logic applies (no panic, not
`MaxUrgency`, and not `Hybrid` before the switch), the decision is admit
iff the sum of the unfloored urgencies `(target - admitted) /
slots_remaining` over the tracked attributes the candidate carries is
nonzero and is ≥ `1 + bufferPercent` or ≥ `baseThreshold`; in particular a
zero sum (e.g. no tracked attribute carried) is rejected. -/
theorem combined_value_rule_amended
    (st : BouncerState) (strat : Strategy) (p : Person)
    (hpanic : panic_check st p = false)
    (happly : ¬ (strat.policyType = "Hybrid" ∧ st.slots_filled < strat.switchPoint) ∧
      strat.policyType ≠ "MaxUrgency") :
    ( should_admit st strat p = true ↔
      (combined_sum st p ≠ 0 ∧
        (1 + strat.bufferPercent ≤ combined_sum st p ∨
          strat.baseThreshold ≤ combined_sum st p))) := by
  have hdispatch : should_admit st strat p = combined_value_logic st strat p := by
    simp [ should_admit, hpanic, happly.1, happly.2]
  rw [hdispatch]
  exact combined_value_logic_rule st strat p

/-- Witness for C4 (amended): late-phase state, the rule fires as stated. -/
theorem combined_value_rule_amended_witness :
    panic_check ⟨[⟨"a", 8, 0⟩], 990, 10⟩ [("a", true)] = false ∧
    (¬ (defaultStrategy.policyType = "Hybrid" ∧
        (⟨[⟨"a", 8, 0⟩], 990, 10⟩ : BouncerState).slots_filled <
          defaultStrategy.switchPoint) ∧
      defaultStrategy.policyType ≠ "MaxUrgency") ∧
    ( should_admit ⟨[⟨"a", 8, 0⟩], 990, 10⟩ defaultStrategy [("a", true)] = true ↔
      (combined_sum ⟨[⟨"a", 8, 0⟩], 990, 10⟩ [("a", true)] ≠ 0 ∧
        (1 + defaultStrategy.bufferPercent ≤
            combined_sum ⟨[⟨"a", 8, 0⟩], 990, 10⟩ [("a", true)] ∨
          defaultStrategy.baseThreshold ≤
            combined_sum ⟨[⟨"a", 8, 0⟩], 990, 10⟩ [("a", true)]))) :=
  ⟨by decide, ⟨by decide, by decide⟩,
    combined_value_rule_amended ⟨[⟨"a", 8, 0⟩], 990, 10⟩ defaultStrategy
      [("a", true)] (by decide) ⟨by decide, by decide⟩⟩

/-- C5: the strategy fetch is total over every modelled outcome and
returns the supplied fallback (the previous strategy at the mid-game call
site, the hardcoded `fallback_strategy` at the initial one) on HTTP error,
timeout, and any other failure; and the hardcoded default's observable
fields are Hybrid / 400 / 0.55 / 0.4 / 0.75 / 0.1. -/
theorem strategy_fetch_never_raises :
    (∀ (code : Int) (fb : Strategy),
      get_soulbios_strategy (.httpStatusError code) fb = fb) ∧
    (∀ fb : Strategy, get_soulbios_strategy .timeout fb = fb) ∧
    (∀ fb : Strategy, get_soulbios_strategy .failure fb = fb) ∧
    fallback_strategy.policyType = "Hybrid" ∧
    fallback_strategy.switchPoint = 400 ∧
    fallback_strategy.baseLeniency = 0.55 ∧
    fallback_strategy.scalingFactor = 0.4 ∧
    fallback_strategy.baseThreshold = 0.75 ∧
    fallback_strategy.bufferPercent = 0.1 :=
  ⟨fun _ _ => rfl, fun _ => rfl, fun _ => rfl, rfl, rfl, rfl, rfl, rfl, rfl⟩

/-- Helper: with at least 25 recorded decisions, a zero acceptance rate in
the 25-window is exactly zero admissions among the last 25 decisions. -/
theorem acceptance_rate_zero_iff (recent : List Bool) (h25 : 25 ≤ recent.length) :
    (get_acceptance_rate_in_window recent 25 = 0 ↔
      (recent.drop (recent.length - 25)).countP (fun b => b) = 0) := by
  have hne : ¬ (recent = [] ∨ recent.length < 25) := by
    rintro (h | h)
    · rw [h] at h25; simp at h25
    · omega
  have hwl : (recent.drop (recent.length - 25)).length = 25 := by
    rw [List.length_drop]; omega
  rw [get_acceptance_rate_in_window, if_neg hne]
  simp only [hwl]
  rw [div_eq_zero_iff]
  constructor
  · rintro (h | h)
    · exact_mod_cast h
    · norm_num at h
  · intro h
    left
    exact_mod_cast h

/-- C7: a review fires iff (a) `person_index > 0` and
`person_index % 100 = 0`, or (b) `person_index > 450`, at least 25
decisions are recorded, and the most recent 25 contain zero admissions. -/
theorem review_trigger_rule (person_index : Int) (recent : List Bool) :
    review_triggered person_index recent = true ↔
      ((0 < person_index ∧ person_index % 100 = 0) ∨
        (450 < person_index ∧ 25 ≤ recent.length ∧
          (recent.drop (recent.length - 25)).countP (fun b => b) = 0)) := by
  simp only [review_triggered, Bool.and_eq_true, Bool.or_eq_true, decide_eq_true_eq]
  by_cases h25 : 25 ≤ recent.length
  · rw [acceptance_rate_zero_iff recent h25]
    constructor
    · rintro ⟨hpos, hmod | ⟨⟨⟨h450, hnmod⟩, _⟩, hc⟩⟩
      · exact Or.inl ⟨hpos, hmod⟩
      · exact Or.inr ⟨h450, h25, hc⟩
    · rintro (⟨hpos, hmod⟩ | ⟨h450, _, hc⟩)
      · exact ⟨hpos, Or.inl hmod⟩
      · by_cases hmod : person_index % 100 = 0
        · exact ⟨by omega, Or.inl hmod⟩
        · exact ⟨by omega, Or.inr ⟨⟨⟨h450, hmod⟩, h25⟩, hc⟩⟩
  · constructor
    · rintro ⟨hpos, hmod | ⟨⟨⟨_, _⟩, h⟩, _⟩⟩
      · exact Or.inl ⟨hpos, hmod⟩
      · exact absurd h h25
    · rintro (⟨hpos, hmod⟩ | ⟨_, h, _⟩)
      · exact ⟨hpos, Or.inl hmod⟩
      · exact absurd h h25

/-- Helper: `max 0 (1 - x)` lies in `[0, 1]` for nonnegative `x`. -/
theorem max0_one_sub_mem (x : ℚ) (hx : 0 ≤ x) :
    0 ≤ max 0 (1 - x) ∧ max 0 (1 - x) ≤ 1 :=
  ⟨le_max_left 0 _, max_le (by norm_num) (by linarith)⟩

/-- Helper: `person_similarity` lies in `[0, 1]`. -/
theorem person_similarity_mem (s1 s2 : GameState) :
    0 ≤ person_similarity s1 s2 ∧ person_similarity s1 s2 ≤ 1 :=
  max0_one_sub_mem _ (div_nonneg (abs_nonneg _) (by norm_num))

/-- Helper: `accept_similarity` lies in `[0, 1]`. -/
theorem accept_similarity_mem (s1 s2 : GameState) :
    0 ≤ accept_similarity s1 s2 ∧ accept_similarity s1 s2 ≤ 1 :=
  max0_one_sub_mem _ (div_nonneg (abs_nonneg _) (by norm_num))

/-- Helper: a running product of factors in `[0, 1]` stays in `[0, 1]`. -/
theorem foldl_mul_mem (f : String → ℚ) (hf : ∀ a, 0 ≤ f a ∧ f a ≤ 1) :
    ∀ (l : List String) (init : ℚ), 0 ≤ init → init ≤ 1 →
      0 ≤ l.foldl (fun acc a => acc * f a) init ∧
        l.foldl (fun acc a => acc * f a) init ≤ 1 := by
  intro l
  induction l with
  | nil => exact fun init h0 h1 => ⟨h0, h1⟩
  | cons a t ih =>
    intro init h0 h1
    exact ih (init * f a) (mul_nonneg h0 (hf a).1)
      (mul_le_one₀ h1 (hf a).1 (hf a).2)

/-- Helper: `constraint_similarity` lies in `[0, 1]`. -/
theorem constraint_similarity_mem (s1 s2 : GameState) :
    0 ≤ constraint_similarity s1 s2 ∧ constraint_similarity s1 s2 ≤ 1 :=
  foldl_mul_mem _
    (fun _ => max0_one_sub_mem _ (div_nonneg (abs_nonneg _) (by norm_num)))
    _ 1 (by norm_num) (by norm_num)

/-- Helper: the weighted average lies in `[0, 1]`. -/
theorem calculate_similarity_mem (s1 s2 : GameState) :
    0 ≤ calculate_similarity s1 s2 ∧ calculate_similarity s1 s2 ≤ 1 := by
  obtain ⟨hp0, hp1⟩ := person_similarity_mem s1 s2
  obtain ⟨ha0, ha1⟩ := accept_similarity_mem s1 s2
  obtain ⟨hc0, hc1⟩ := constraint_similarity_mem s1 s2
  unfold calculate_similarity
  constructor
  · have := mul_nonneg hp0 (show (0:ℚ) ≤ 0.4 by norm_num)
    have := mul_nonneg ha0 (show (0:ℚ) ≤ 0.3 by norm_num)
    have := mul_nonneg hc0 (show (0:ℚ) ≤ 0.3 by norm_num)
    linarith
  · have h1 : person_similarity s1 s2 * 0.4 ≤ 0.4 :=
      mul_le_of_le_one_left (by norm_num) hp1
    have h2 : accept_similarity s1 s2 * 0.3 ≤ 0.3 :=
      mul_le_of_le_one_left (by norm_num) ha1
    have h3 : constraint_similarity s1 s2 * 0.3 ≤ 0.3 :=
      mul_le_of_le_one_left (by norm_num) hc1
    linarith

/-- Helper: similarity of a state with itself is exactly 1. -/
theorem calculate_similarity_self (s : GameState) :
    calculate_similarity s s = 1 := by
  have hp : person_similarity s s = 1 := by
    unfold person_similarity
    norm_num
  have ha : accept_similarity s s = 1 := by
    unfold accept_similarity
    norm_num
  have hc : constraint_similarity s s = 1 := by
    unfold constraint_similarity
    have : ∀ (l : List String) (init : ℚ),
        l.foldl (fun acc a =>
          acc * max 0 (1 - |((minCountOf s.constraints a : ℚ)) -
            (minCountOf s.constraints a : ℚ)| / 200)) init = init := by
      intro l
      induction l with
      | nil => intro init; rfl
      | cons a t ih =>
        intro init
        have hfa : max 0 (1 - |((minCountOf s.constraints a : ℚ)) -
            (minCountOf s.constraints a : ℚ)| / 200) = 1 := by norm_num
        rw [List.foldl_cons, hfa, mul_one, ih]
    exact this _ 1
  rw [calculate_similarity, hp, ha, hc]
  norm_num

/-- C9: the similarity function is bounded in `[0, 1]` and reflexive:
`similarity(s, s) = 1` exactly. -/
theorem similarity_bounded_and_reflexive :
    (∀ s1 s2 : GameState,
      0 ≤ calculate_similarity s1 s2 ∧ calculate_similarity s1 s2 ≤ 1) ∧
    (∀ s : GameState, calculate_similarity s s = 1) :=
  ⟨calculate_similarity_mem, calculate_similarity_self⟩

/-- Counterexample to C6: the code's `constraintSim` compares `minCount`
values, not deficits.  Two states with the same constraint target but
`admitted` 0 vs 100 have code similarity 1, while the claim's
deficit-based formula gives 0.85. -/
theorem similarity_claim_counterexample :
    calculate_similarity ⟨0, 0, [⟨"a", 100, 0⟩], []⟩
      ⟨0, 0, [⟨"a", 100, 100⟩], []⟩ = 1 ∧
    similarity_by_spec ⟨0, 0, [⟨"a", 100, 0⟩], []⟩
      ⟨0, 0, [⟨"a", 100, 100⟩], []⟩ = 17 / 20 := by
  constructor <;>
    norm_num [calculate_similarity, similarity_by_spec, person_similarity,
      accept_similarity, constraint_similarity, attrUnion, minCountOf,
      deficitOf, List.dedup, List.find?, List.insert]

/-- Helper: invariant of the similarity-match fold.  Starting from an
accumulator that is either the initial `(none, 0)` or a valid best with
its own similarity ≥ 0.85, the fold preserves that shape, never decreases
the best similarity, and every valid entry scanned is either ≤ the final
best similarity or below the 0.85 threshold. -/
theorem sim_match_fold_invariant (now : Nat) (q : GameState) :
    ∀ (l : List (GameState × CachedStrategy))
      (b : Option (GameState × CachedStrategy) × ℚ),
      (b.1 = none → b.2 = 0) →
      (∀ kv, b.1 = some kv → is_cache_valid now kv.2 = true ∧
        b.2 = calculate_similarity q kv.2.game_state ∧ (0.85 : ℚ) ≤ b.2) →
      ((l.foldl (sim_match_step now q) b).1 = none →
          (l.foldl (sim_match_step now q) b).2 = 0) ∧
      (∀ kv, (l.foldl (sim_match_step now q) b).1 = some kv →
        (kv ∈ l ∨ b.1 = some kv) ∧ is_cache_valid now kv.2 = true ∧
        (l.foldl (sim_match_step now q) b).2 =
          calculate_similarity q kv.2.game_state ∧
        (0.85 : ℚ) ≤ (l.foldl (sim_match_step now q) b).2) ∧
      b.2 ≤ (l.foldl (sim_match_step now q) b).2 ∧
      (∀ kv' ∈ l, is_cache_valid now kv'.2 = true →
        calculate_similarity q kv'.2.game_state ≤
            (l.foldl (sim_match_step now q) b).2 ∨
          calculate_similarity q kv'.2.game_state < 0.85) := by
  intro l
  induction l with
  | nil =>
    intro b hb1 hb2
    exact ⟨hb1, fun kv h => ⟨Or.inr h, hb2 kv h⟩, le_refl _, by simp⟩
  | cons x t ih =>
    intro b hb1 hb2
    simp only [List.foldl_cons]
    by_cases hv : is_cache_valid now x.2
    · by_cases hcond : b.2 < calculate_similarity q x.2.game_state ∧
          (0.85 : ℚ) ≤ calculate_similarity q x.2.game_state
      · have hstep : sim_match_step now q b x =
            (some x, calculate_similarity q x.2.game_state) := by
          simp [sim_match_step, hv, hcond]
        rw [hstep]
        obtain ⟨h1, h2, h3, h4⟩ := ih (some x, calculate_similarity q x.2.game_state)
          (by simp) (by
            intro kv h
            have hx : kv = x := by simpa using h.symm
            subst hx
            exact ⟨hv, rfl, hcond.2⟩)
        refine ⟨h1, ?_, ?_, ?_⟩
        · intro kv h
          obtain ⟨hmem | hbx, rest⟩ := h2 kv h
          · exact ⟨Or.inl (List.mem_cons_of_mem _ hmem), rest⟩
          · have hx : kv = x := by simpa using hbx.symm
            subst hx
            exact ⟨Or.inl (List.mem_cons_self _ _), rest⟩
        · exact le_trans (le_of_lt hcond.1) h3
        · intro kv' hkv' hvalid
          rcases List.mem_cons.mp hkv' with heq | hmem
          · subst heq
            exact Or.inl h3
          · exact h4 kv' hmem hvalid
      · have hstep : sim_match_step now q b x = b := by
          simp only [sim_match_step, hv, if_true]
          exact if_neg hcond
        rw [hstep]
        obtain ⟨h1, h2, h3, h4⟩ := ih b hb1 hb2
        refine ⟨h1, ?_, h3, ?_⟩
        · intro kv h
          obtain ⟨hmem | hb, rest⟩ := h2 kv h
          · exact ⟨Or.inl (List.mem_cons_of_mem _ hmem), rest⟩
          · exact ⟨Or.inr hb, rest⟩
        · intro kv' hkv' hvalid
          rcases List.mem_cons.mp hkv' with heq | hmem
          · subst heq
            rcases not_and_or.mp hcond with h | h
            · push_neg at h
              exact Or.inl (le_trans h h3)
            · push_neg at h
              exact Or.inr h
          · exact h4 kv' hmem hvalid
    · have hstep : sim_match_step now q b x = b := by
        simp [sim_match_step, hv]
      rw [hstep]
      obtain ⟨h1, h2, h3, h4⟩ := ih b hb1 hb2
      refine ⟨h1, ?_, h3, ?_⟩
      · intro kv h
        obtain ⟨hmem | hb, rest⟩ := h2 kv h
        · exact ⟨Or.inl (List.mem_cons_of_mem _ hmem), rest⟩
        · exact ⟨Or.inr hb, rest⟩
      · intro kv' hkv' hvalid
        rcases List.mem_cons.mp hkv' with heq | hmem
        · subst heq
          exact absurd hvalid (by simp [hv])
        · exact h4 kv' hmem hvalid

/-- C6 (amended): the similarity score is
`0.4*personSim + 0.3*acceptSim + 0.3*constraintSim` with `constraintSim`
the product over attributes of `max(0, 1 - |ΔminCount|/200)` — the code
compares `minCount` values, not deficits — and the similarity lookup
returns a best entry only when it is non-expired with score ≥ 0.85 and no
other non-expired entry scores higher; when it returns none, every
non-expired entry scores below 0.85. -/
theorem similarity_formula_and_lookup :
    (∀ s1 s2 : GameState, calculate_similarity s1 s2 =
      0.4 * person_similarity s1 s2 + 0.3 * accept_similarity s1 s2 +
        0.3 * constraint_similarity s1 s2) ∧
    (∀ (now : Nat) (cache : List (GameState × CachedStrategy)) (q : GameState),
      (∀ kv, (get_similarity_match now cache q).1 = some kv →
        kv ∈ cache ∧ is_cache_valid now kv.2 = true ∧
        (get_similarity_match now cache q).2 =
          calculate_similarity q kv.2.game_state ∧
        (0.85 : ℚ) ≤ (get_similarity_match now cache q).2 ∧
        ∀ kv' ∈ cache, is_cache_valid now kv'.2 = true →
          calculate_similarity q kv'.2.game_state ≤
            calculate_similarity q kv.2.game_state) ∧
      ((get_similarity_match now cache q).1 = none →
        ∀ kv' ∈ cache, is_cache_valid now kv'.2 = true →
          calculate_similarity q kv'.2.game_state < 0.85)) := by
  constructor
  · intro s1 s2
    unfold calculate_similarity
    ring
  · intro now cache q
    obtain ⟨h1, h2, _, h4⟩ := sim_match_fold_invariant now q cache (none, 0)
      (fun _ => rfl) (by intro kv h; exact absurd h (by simp))
    constructor
    · intro kv h
      obtain ⟨hmem | hb, hvalid, hs, h85⟩ := h2 kv h
      · refine ⟨hmem, hvalid, hs, h85, ?_⟩
        intro kv' hkv' hvalid'
        rcases h4 kv' hkv' hvalid' with hle | hlt
        · rw [hs] at hle
          exact hle
        · rw [hs] at h85
          exact le_trans (le_of_lt hlt) h85
      · exact absurd hb (by simp)
    · intro h kv' hkv' hvalid'
      have h0 := h1 h
      rcases h4 kv' hkv' hvalid' with hle | hlt
      · rw [h0] at hle
        calc calculate_similarity q kv'.2.game_state ≤ 0 := hle
          _ < 0.85 := by norm_num
      · exact hlt

/-- Helper: the keys after a dict insert are unchanged on overwrite and
gain `k` at the end on a fresh key. -/
theorem dict_insert_keys (cache : List (GameState × CachedStrategy))
    (k : GameState) (v : CachedStrategy) :
    (dict_insert cache k v).map Prod.fst =
      if k ∈ cache.map Prod.fst then cache.map Prod.fst
      else cache.map Prod.fst ++ [k] := by
  unfold dict_insert
  by_cases h : k ∈ cache.map Prod.fst
  · simp only [h, if_true, List.map_map]
    apply List.map_congr_left
    intro kv _
    by_cases hk : kv.1 = k
    · simp [Function.comp, hk]
    · simp [Function.comp, hk]
  · simp [h]

/-- Helper: dict insert preserves distinctness of keys. -/
theorem dict_insert_nodup (cache : List (GameState × CachedStrategy))
    (k : GameState) (v : CachedStrategy)
    (h : (cache.map Prod.fst).Nodup) :
    ((dict_insert cache k v).map Prod.fst).Nodup := by
  rw [dict_insert_keys]
  by_cases hk : k ∈ cache.map Prod.fst
  · simpa [hk] using h
  · simp [hk, List.nodup_append, h]

/-- Helper: dict insert grows the cache by at most one entry. -/
theorem dict_insert_length (cache : List (GameState × CachedStrategy))
    (k : GameState) (v : CachedStrategy) :
    (dict_insert cache k v).length ≤ cache.length + 1 := by
  unfold dict_insert
  by_cases h : k ∈ cache.map Prod.fst
  · simp [h]
  · simp [h]

/-- Helper: erasing the entry of key `k` keeps every other key present. -/
theorem mem_keys_eraseP (c : List (GameState × CachedStrategy))
    (k k' : GameState) (hne : k' ≠ k) (h : k' ∈ c.map Prod.fst) :
    k' ∈ (c.eraseP fun kv => decide (kv.1 = k)).map Prod.fst := by
  induction c with
  | nil => simp at h
  | cons kv0 rest ih =>
    rw [List.eraseP_cons]
    simp only [List.map_cons, List.mem_cons] at h
    by_cases h0 : kv0.1 = k
    · simp only [h0, decide_True, cond_true]
      rcases h with heq | hmem
      · exact absurd (heq.trans h0) hne
      · exact hmem
    · simp only [h0, decide_False, cond_false, List.map_cons, List.mem_cons]
      rcases h with heq | hmem
      · exact Or.inl heq
      · exact Or.inr (ih hmem)

/-- Helper: deleting a list of distinct, present keys removes exactly one
entry per key. -/
theorem foldl_eraseP_length :
    ∀ (ks c : List (GameState × CachedStrategy)),
      (ks.map Prod.fst).Nodup →
      (∀ kv ∈ ks, kv.1 ∈ c.map Prod.fst) →
      (ks.foldl (fun acc kv => acc.eraseP fun kv2 => decide (kv2.1 = kv.1)) c).length
        = c.length - ks.length := by
  intro ks
  induction ks with
  | nil => intro c _ _; simp
  | cons kv ks ih =>
    intro c hnodup hmem
    simp only [List.foldl_cons]
    have hk : kv.1 ∈ c.map Prod.fst := hmem kv (List.mem_cons_self _ _)
    obtain ⟨x, hx, hfx⟩ := List.mem_map.mp hk
    have hlen : (c.eraseP fun kv2 => decide (kv2.1 = kv.1)).length = c.length - 1 :=
      List.length_eraseP_of_mem hx (by simp [hfx])
    simp only [List.map_cons, List.nodup_cons] at hnodup
    have hmem2 : ∀ kv' ∈ ks,
        kv'.1 ∈ (c.eraseP fun kv2 => decide (kv2.1 = kv.1)).map Prod.fst := by
      intro kv' h'
      have hne : kv'.1 ≠ kv.1 := by
        intro he
        exact hnodup.1 (he ▸ List.mem_map_of_mem Prod.fst h')
      exact mem_keys_eraseP _ _ _ hne (hmem kv' (List.mem_cons_of_mem _ h'))
    rw [ih _ hnodup.2 hmem2, hlen]
    have hpos : 1 ≤ c.length := List.length_pos.mpr (List.ne_nil_of_mem hx)
    simp only [List.length_cons]
    omega

/-- Helper: the erase fold only removes entries. -/
theorem foldl_eraseP_sublist :
    ∀ (ks c : List (GameState × CachedStrategy)),
      (ks.foldl (fun acc kv => acc.eraseP fun kv2 => decide (kv2.1 = kv.1)) c).Sublist
        c := by
  intro ks
  induction ks with
  | nil => intro c; exact List.Sublist.refl c
  | cons kv ks ih =>
    intro c
    simp only [List.foldl_cons]
    exact (ih _).trans (List.eraseP_sublist c)

/-- Helper: with distinct keys, eviction removes exactly `len / 5`
entries. -/
theorem evict_length (cache : List (GameState × CachedStrategy))
    (h : (cache.map Prod.fst).Nodup) :
    (evict_oldest_entries cache).length = cache.length - cache.length / 5 := by
  unfold evict_oldest_entries
  have hperm : (List.insertionSort entry_le cache).Perm cache :=
    List.perm_insertionSort entry_le cache
  have hnodup_sorted : ((List.insertionSort entry_le cache).map Prod.fst).Nodup :=
    ((hperm.map Prod.fst).nodup_iff).mpr h
  have htake_sub : ((List.insertionSort entry_le cache).take (cache.length / 5)).Sublist
      (List.insertionSort entry_le cache) := List.take_sublist _ _
  have hnodup_take :
      (((List.insertionSort entry_le cache).take (cache.length / 5)).map Prod.fst).Nodup :=
    List.Nodup.sublist (htake_sub.map Prod.fst) hnodup_sorted
  have hmem : ∀ kv ∈ (List.insertionSort entry_le cache).take (cache.length / 5),
      kv.1 ∈ cache.map Prod.fst := by
    intro kv hkv
    exact List.mem_map_of_mem Prod.fst (hperm.mem_iff.mp (htake_sub.subset hkv))
  rw [foldl_eraseP_length _ _ hnodup_take hmem]
  have hsl : (List.insertionSort entry_le cache).length = cache.length :=
    hperm.length_eq
  rw [List.length_take, hsl]
  have h5 : cache.length / 5 ≤ cache.length := Nat.div_le_self _ _
  rw [Nat.min_eq_left h5]

/-- Helper: eviction preserves distinctness of keys. -/
theorem evict_nodup (cache : List (GameState × CachedStrategy))
    (h : (cache.map Prod.fst).Nodup) :
    ((evict_oldest_entries cache).map Prod.fst).Nodup := by
  unfold evict_oldest_entries
  exact List.Nodup.sublist ((foldl_eraseP_sublist _ _).map Prod.fst) h

/-- Helper: one store call preserves the cache invariant
(distinct keys, size ≤ 1000). -/
theorem cache_strategy_invariant (cache : List (GameState × CachedStrategy))
    (k : GameState) (ts : Nat) (s : Strategy)
    (hnodup : (cache.map Prod.fst).Nodup) (hlen : cache.length ≤ 1000) :
    ((cache_strategy cache k ts s).map Prod.fst).Nodup ∧
      (cache_strategy cache k ts s).length ≤ 1000 := by
  unfold cache_strategy
  by_cases h : 1000 ≤ cache.length
  · simp only [h, if_true]
    have hn : cache.length = 1000 := le_antisymm hlen h
    have he := evict_length cache hnodup
    rw [hn] at he
    norm_num at he
    refine ⟨dict_insert_nodup _ _ _ (evict_nodup cache hnodup), ?_⟩
    have hi := dict_insert_length (evict_oldest_entries cache) k ⟨s, ts, k, 1, 0⟩
    omega
  · simp only [h, if_false]
    refine ⟨dict_insert_nodup _ _ _ hnodup, ?_⟩
    have hi := dict_insert_length cache k ⟨s, ts, k, 1, 0⟩
    omega

/-- Helper: the invariant holds along any sequence of stores. -/
theorem foldl_stores_invariant :
    ∀ (ops : List (GameState × Nat × Strategy))
      (c : List (GameState × CachedStrategy)),
      (c.map Prod.fst).Nodup → c.length ≤ 1000 →
      (((ops.foldl (fun c op => cache_strategy c op.1 op.2.1 op.2.2) c).map
          Prod.fst).Nodup ∧
        (ops.foldl (fun c op => cache_strategy c op.1 op.2.1 op.2.2) c).length
          ≤ 1000) := by
  intro ops
  induction ops with
  | nil => intro c h1 h2; exact ⟨h1, h2⟩
  | cons op ops ih =>
    intro c h1 h2
    simp only [List.foldl_cons]
    obtain ⟨h1s, h2s⟩ := cache_strategy_invariant c op.1 op.2.1 op.2.2 h1 h2
    exact ih _ h1s h2s

/-- C8: size bound and eviction behaviour of the strategy cache: after any
sequence of store calls starting from the empty cache the size never
exceeds 1000; a store that finds the cache at or above capacity first
evicts and then inserts; and (with distinct keys) eviction removes exactly
the oldest 20% — `len / 5` entries, the first `len / 5` of the entries
sorted ascending by `(timestamp, hit_count)`. -/
theorem cache_size_bound_and_eviction :
    (∀ ops : List (GameState × Nat × Strategy), (apply_stores ops).length ≤ 1000) ∧
    (∀ (cache : List (GameState × CachedStrategy)) (k : GameState) (ts : Nat)
      (s : Strategy), 1000 ≤ cache.length →
      cache_strategy cache k ts s =
        dict_insert (evict_oldest_entries cache) k ⟨s, ts, k, 1, 0⟩) ∧
    (∀ cache : List (GameState × CachedStrategy), (cache.map Prod.fst).Nodup →
      (evict_oldest_entries cache).length = cache.length - cache.length / 5) := by
  refine ⟨?_, ?_, fun cache h => evict_length cache h⟩
  · intro ops
    exact (foldl_stores_invariant ops [] (by simp) (by simp)).2
  · intro cache k ts s h
    unfold cache_strategy
    simp [h]

/-- A concrete full cache of 1000 entries with distinct keys. -/
def big_cache : List (GameState × CachedStrategy) :=
  (List.range 1000).map fun i : Nat =>
    (⟨(i : Int), 0, [], []⟩, ⟨defaultStrategy, 0, ⟨(i : Int), 0, [], []⟩, 1, 0⟩)

/-- Witness for C8: on the concrete full cache, the store evicts first and
eviction removes exactly 200 entries. -/
theorem cache_size_bound_and_eviction_witness :
    1000 ≤ big_cache.length ∧
    (big_cache.map Prod.fst).Nodup ∧
    cache_strategy big_cache ⟨2000, 0, [], []⟩ 5 defaultStrategy =
      dict_insert (evict_oldest_entries big_cache) ⟨2000, 0, [], []⟩
        ⟨defaultStrategy, 5, ⟨2000, 0, [], []⟩, 1, 0⟩ ∧
    (evict_oldest_entries big_cache).length =
      big_cache.length - big_cache.length / 5 := by
  have hlen : big_cache.length = 1000 := by
    unfold big_cache
    rw [List.length_map, List.length_range]
  have hnodup : (big_cache.map Prod.fst).Nodup := by
    unfold big_cache
    rw [List.map_map]
    apply List.Nodup.map ?_ (List.nodup_range 1000)
    intro a b hab
    simp only [Function.comp, GameState.mk.injEq] at hab
    exact_mod_cast hab.1
  exact ⟨by rw [hlen], hnodup,
    cache_size_bound_and_eviction.2.1 big_cache ⟨2000, 0, [], []⟩ 5 defaultStrategy
      (by rw [hlen]),
    cache_size_bound_and_eviction.2.2 big_cache hnodup⟩

end SoulBios
